import Mathlib

/-!
Verification of the easyappoint appointment-scheduling core (Rust sources
`src/models.rs`, `submission/calendar.rs`, `submission/scheduler.rs`) via a
shallow embedding.

Modelling conventions:
* `DateTime<Local>` is modelled as `Int` (seconds since an arbitrary epoch);
  `chrono::Duration::minutes m` is `60 * m` seconds, and a `NaiveTime`
  (time of day, used for breaks) is an `Int` in `[0, 86400)`, extracted from
  an absolute time by `emod 86400`.
* `HashMap<String, V>` is modelled as an association list `List (String × V)`
  with `mapLookup` / `mapInsert` / `mapRemove`; well-formed states have
  no duplicate keys.  `HashMap::insert` replaces the value if the key is
  present, otherwise adds the entry.
* Rust methods taking `&mut self` are modelled as functions returning a pair
  of the method result and the updated state.
* `Uuid::new_v4()` and `Local::now()` are external inputs (an entropy source
  and a clock); they are modelled as explicit parameters (`fresh…` ids,
  `now`), with freshness hypotheses where a theorem needs them.
* Rust's `sort_by_key` is a stable sort; it is modelled by
  `List.insertionSort`, which is stable with the same tie behaviour.
* `chrono`'s `format` calls on timestamps are modelled by `toString` of the
  underlying integer: the claims under study depend only on which message
  template is chosen, never on the rendering of the timestamp itself.
-/

deriving instance DecidableEq for Except

/-- Lookup in an association list, first matching key wins
(models `HashMap::get`). -/
def mapLookup (k : String) : List (String × α) → Option α
  | [] => none
  | (k', v) :: rest => if k' = k then some v else mapLookup k rest

/-- Insert into an association list: replace the first entry with the given
key, or append a new entry (models `HashMap::insert`). -/
def mapInsert (k : String) (v : α) : List (String × α) → List (String × α)
  | [] => [(k, v)]
  | (k', v') :: rest => if k' = k then (k, v) :: rest else (k', v') :: mapInsert k v rest

/-- Remove the first entry with the given key (models `HashMap::remove`). -/
def mapRemove (k : String) : List (String × α) → List (String × α)
  | [] => []
  | (k', v) :: rest => if k' = k then rest else (k', v) :: mapRemove k rest

/-- Rust's `Ord::cmp` on integers (used for timestamps and discriminants). -/
def icmp (a b : Int) : Ordering :=
  if a < b then .lt else if a = b then .eq else .gt

/-- Priority levels (`models.rs` lines 19-24). -/
inductive Priority
  | Routine
  | Urgent
  | Emergency
deriving DecidableEq, Repr

/-- The explicit discriminants `Routine = 1, Urgent = 2, Emergency = 3`;
Rust's derived `Ord` on `Priority` compares these. -/
def Priority.num : Priority → Int
  | .Routine => 1
  | .Urgent => 2
  | .Emergency => 3

/-- Patient record (`models.rs` lines 50-55). -/
structure Patient where
  patient_id : String
  name : String
  contact : String
deriving DecidableEq, Repr

/-- Time slot (`models.rs` lines 79-85). -/
structure TimeSlot where
  start_time : Int
  end_time : Int
  is_available : Bool
  slot_id : String
deriving DecidableEq, Repr

/-- `TimeSlot::new` (`models.rs` lines 89-100); the generated
`Uuid::new_v4()` is the explicit `fresh_id` parameter. -/
def TimeSlot.new (start_time end_time : Int) (fresh_id : String) :
    Except String TimeSlot :=
  if end_time ≤ start_time then .error "End time must be after start time"
  else .ok { start_time := start_time, end_time := end_time,
             is_available := true, slot_id := fresh_id }

/-- `TimeSlot::overlaps_with` (`models.rs` lines 113-115):
`self.start_time < other.end_time && self.end_time > other.start_time`. -/
def TimeSlot.overlaps_with (a b : TimeSlot) : Prop :=
  a.start_time < b.end_time ∧ a.end_time > b.start_time

instance (a b : TimeSlot) : Decidable (a.overlaps_with b) :=
  inferInstanceAs (Decidable (_ ∧ _))

/-- Confirmed appointment (`models.rs` lines 130-139). -/
structure Appointment where
  appointment_id : String
  patient : Patient
  time_slot : TimeSlot
  priority : Priority
  reason : String
  created_at : Int
  confirmed : Bool
deriving DecidableEq, Repr

/-- `Appointment::new` (`models.rs` lines 143-162); `fresh_id` models
`Uuid::new_v4()` and `now` models `Local::now()`. -/
def Appointment.new (patient : Patient) (time_slot : TimeSlot)
    (priority : Priority) (reason : String) (fresh_id : String) (now : Int) :
    Except String Appointment :=
  if reason.isEmpty then .error "Appointment reason cannot be empty"
  else .ok { appointment_id := fresh_id, patient := patient,
             time_slot := time_slot, priority := priority, reason := reason,
             created_at := now, confirmed := true }

/-- Appointment request (`models.rs` lines 167-175). -/
structure AppointmentRequest where
  request_id : String
  patient : Patient
  priority : Priority
  preferred_time : Int
  reason : String
  flexibility_minutes : Int
  created_at : Int
deriving DecidableEq, Repr

/-- `AppointmentRequest::earliest_acceptable` (`models.rs` lines 205-207). -/
def AppointmentRequest.earliest_acceptable (r : AppointmentRequest) : Int :=
  r.preferred_time - 60 * r.flexibility_minutes

/-- `AppointmentRequest::latest_acceptable` (`models.rs` lines 210-212). -/
def AppointmentRequest.latest_acceptable (r : AppointmentRequest) : Int :=
  r.preferred_time + 60 * r.flexibility_minutes

/-- `AppointmentRequest::is_time_acceptable` (`models.rs` lines 215-217). -/
def AppointmentRequest.is_time_acceptable (r : AppointmentRequest)
    (slot : TimeSlot) : Prop :=
  r.earliest_acceptable ≤ slot.start_time ∧ slot.start_time ≤ r.latest_acceptable

instance (r : AppointmentRequest) (s : TimeSlot) :
    Decidable (r.is_time_acceptable s) :=
  inferInstanceAs (Decidable (_ ∧ _))

/-- `impl Ord for AppointmentRequest` (`models.rs` lines 234-245), verbatim:
`match other.priority.cmp(&self.priority) { Equal => self.created_at.cmp(&other.created_at), o => o }`. -/
def AppointmentRequest.cmp (self other : AppointmentRequest) : Ordering :=
  match icmp other.priority.num self.priority.num with
  | .eq => icmp self.created_at other.created_at
  | o => o

/-- `a` is greater than or equal to `b` in the `Ord` order of
`AppointmentRequest`; `BinaryHeap::pop` returns a maximal element for this
relation. -/
def reqGe (a b : AppointmentRequest) : Prop := AppointmentRequest.cmp a b ≠ .lt

instance (a b : AppointmentRequest) : Decidable (reqGe a b) :=
  inferInstanceAs (Decidable (_ ≠ _))

/-- Drain order of a `BinaryHeap<AppointmentRequest>`: repeatedly popping a
maximal element yields a sequence sorted descending under the request `Ord`.
`insertionSort` over `reqGe` produces exactly such a sequence (for inputs on
which the order is strict, the drain order is unique and equals this one). -/
def drainOrder (l : List AppointmentRequest) : List AppointmentRequest :=
  List.insertionSort reqGe l

/-- Ordering of slots by start time, as used by the calendar's
`sort_by_key(|s| s.start_time)` calls. -/
def slotByStart (a b : TimeSlot) : Prop := a.start_time ≤ b.start_time

instance : DecidableRel slotByStart :=
  fun a b => inferInstanceAs (Decidable (_ ≤ _))

instance : IsTotal TimeSlot slotByStart := ⟨fun a b => Int.le_total _ _⟩

instance : IsTrans TimeSlot slotByStart := ⟨fun _ _ _ => Int.le_trans⟩

/-- Ordering of slots by absolute distance (in seconds) of their start time
from a preferred time, as used by `find_available_slot`'s
`sort_by_key(|s| (s.start_time - preferred_time).num_seconds().abs())`. -/
def distLe (pref : Int) (a b : TimeSlot) : Prop :=
  (a.start_time - pref).natAbs ≤ (b.start_time - pref).natAbs

instance (pref : Int) : DecidableRel (distLe pref) :=
  fun a b => inferInstanceAs (Decidable (_ ≤ _))

instance (pref : Int) : IsTotal TimeSlot (distLe pref) :=
  ⟨fun a b => Nat.le_total _ _⟩

instance (pref : Int) : IsTrans TimeSlot (distLe pref) :=
  ⟨fun _ _ _ => Nat.le_trans⟩

/-- The doctor calendar (`calendar.rs` lines 12-19). -/
structure DoctorCalendar where
  doctor_name : String
  doctor_id : String
  default_slot_duration : Int
  time_slots : List (String × TimeSlot)
  appointments : List (String × Appointment)
deriving DecidableEq, Repr

/-- `DoctorCalendar::available_slots` (`calendar.rs` lines 48-57): all slots
whose availability flag is set, sorted ascending by start time. -/
def DoctorCalendar.available_slots (c : DoctorCalendar) : List TimeSlot :=
  List.insertionSort slotByStart
    ((c.time_slots.map Prod.snd).filter (fun s => s.is_available))

/-- `DoctorCalendar::add_time_slot` (`calendar.rs` lines 67-79).  The loop
over `self.time_slots.values()` returning on the first overlap is `find?`;
on success the slot is inserted keyed by its id.  The formatted timestamps in
the error message are rendered with `toString`. -/
def DoctorCalendar.add_time_slot (c : DoctorCalendar) (slot : TimeSlot) :
    Except String Unit × DoctorCalendar :=
  match (c.time_slots.map Prod.snd).find? (fun ex => decide (slot.overlaps_with ex)) with
  | some ex =>
      (.error ("Time slot overlaps with existing slot: " ++ toString ex.start_time
        ++ " - " ++ toString ex.end_time), c)
  | none =>
      (.ok (), { c with time_slots := mapInsert slot.slot_id slot c.time_slots })

/-- `DoctorCalendar::remove_time_slot` (`calendar.rs` lines 82-84):
`self.time_slots.remove(slot_id).is_some()` — unconditional removal. -/
def DoctorCalendar.remove_time_slot (c : DoctorCalendar) (slot_id : String) :
    Bool × DoctorCalendar :=
  match mapLookup slot_id c.time_slots with
  | some _ => (true, { c with time_slots := mapRemove slot_id c.time_slots })
  | none => (false, c)

/-- `DoctorCalendar::find_available_slot` (`calendar.rs` lines 176-204):
filter the available slots to those starting within
`[preferred − flexibility, preferred + flexibility]`, sort by absolute
distance of the start time from the preferred time, take the first
(`None` when there is no candidate). -/
def DoctorCalendar.find_available_slot (c : DoctorCalendar)
    (preferred_time flexibility_minutes : Int) : Option TimeSlot :=
  let earliest := preferred_time - 60 * flexibility_minutes
  let latest := preferred_time + 60 * flexibility_minutes
  let candidates := c.available_slots.filter
    (fun s => decide (earliest ≤ s.start_time) && decide (s.start_time ≤ latest))
  (List.insertionSort (distLe preferred_time) candidates).head?

/-- `DoctorCalendar::find_next_available_slot` (`calendar.rs` lines 207-214):
first available slot (in ascending start-time order) starting at or after the
given time. -/
def DoctorCalendar.find_next_available_slot (c : DoctorCalendar) (after : Int) :
    Option TimeSlot :=
  c.available_slots.find? (fun s => decide (after ≤ s.start_time))

/-- `DoctorCalendar::book_slot` (`calendar.rs` lines 227-250).  Note the
source order: the stored slot's availability flag is set to `false` BEFORE
`Appointment::new` validates the reason, and the `?` on `Appointment::new`
propagates the error with the flag already flipped; the model reproduces
this by returning the intermediate state `c1` in that error case. -/
def DoctorCalendar.book_slot (c : DoctorCalendar) (slot : TimeSlot)
    (patient : Patient) (priority : Priority) (reason : String)
    (fresh_id : String) (now : Int) :
    Except String Appointment × DoctorCalendar :=
  match mapLookup slot.slot_id c.time_slots with
  | none => (.error "Time slot not found in calendar", c)
  | some stored_slot =>
    if stored_slot.is_available = false then
      (.error "Time slot is not available", c)
    else
      let stored := { stored_slot with is_available := false }
      let c1 := { c with time_slots := mapInsert slot.slot_id stored c.time_slots }
      match Appointment.new patient stored priority reason fresh_id now with
      | .error e => (.error e, c1)
      | .ok appointment =>
        (.ok appointment,
         { c1 with appointments :=
             mapInsert appointment.appointment_id appointment c1.appointments })

/-- `DoctorCalendar::cancel_appointment` (`calendar.rs` lines 253-262):
remove the appointment if present and set its slot's availability flag back
to `true` (when that slot still exists); report whether an appointment was
found. -/
def DoctorCalendar.cancel_appointment (c : DoctorCalendar)
    (appointment_id : String) : Bool × DoctorCalendar :=
  match mapLookup appointment_id c.appointments with
  | none => (false, c)
  | some appointment =>
    let c1 := { c with appointments := mapRemove appointment_id c.appointments }
    match mapLookup appointment.time_slot.slot_id c1.time_slots with
    | some slot =>
        (true, { c1 with time_slots :=
          (mapInsert appointment.time_slot.slot_id
            ({ slot with is_available := true }) c1.time_slots) })
    | none => (true, c1)

/-- `DoctorCalendar::get_appointment_by_id` (`calendar.rs` lines 274-276). -/
def DoctorCalendar.get_appointment_by_id (c : DoctorCalendar)
    (appointment_id : String) : Option Appointment :=
  mapLookup appointment_id c.appointments

/-- One iteration chain of the `while` loop of
`DoctorCalendar::generate_daily_slots` (`calendar.rs` lines 113-135).
`duration` is in seconds here (the source's minutes times 60), `endT` is the
absolute end-of-day bound, `brk` is the optional pair of break start/end
times-of-day in seconds, and `ids k, ids (k+1), …` supply the UUIDs consumed
by `TimeSlot::new` on the non-skipped iterations.  The source loops forever
when `duration ≤ 0` (never reachable through `DoctorCalendar::new`, which
requires a positive default duration); the model returns in that case. -/
def generateLoop (c : DoctorCalendar) (current endT duration : Int)
    (brk : Option (Int × Int)) (ids : Nat → String) (k : Nat) :
    List TimeSlot × DoctorCalendar :=
  if h : 0 < duration ∧ current + duration ≤ endT then
    let slot_end := current + duration
    let skip : Bool := match brk with
      | some (bs, be) =>
          decide (current.emod 86400 < be) && decide (slot_end.emod 86400 > bs)
      | none => false
    if skip then
      generateLoop c slot_end endT duration brk ids k
    else
      match TimeSlot.new current slot_end (ids k) with
      | .ok slot =>
        match c.add_time_slot slot with
        | (.ok _, c') =>
          let (slots, c'') := generateLoop c' slot_end endT duration brk ids (k + 1)
          (slot :: slots, c'')
        | (.error _, c') => generateLoop c' slot_end endT duration brk ids (k + 1)
      | .error _ => generateLoop c slot_end endT duration brk ids (k + 1)
  else
    ([], c)
termination_by (endT - current).toNat
decreasing_by all_goals omega

/-- `DoctorCalendar::generate_daily_slots` (`calendar.rs` lines 87-138):
`dayStart` models `date.date_naive().and_hms(0,0,0)` as an absolute time,
the working window is `[dayStart + 3600*start_hour, dayStart + 3600*end_hour]`,
and the slot duration falls back to the calendar default. -/
def DoctorCalendar.generate_daily_slots (c : DoctorCalendar) (dayStart : Int)
    (start_hour end_hour : Nat) (slot_duration_minutes : Option Int)
    (brk : Option (Int × Int)) (ids : Nat → String) :
    List TimeSlot × DoctorCalendar :=
  let duration := 60 * (slot_duration_minutes.getD c.default_slot_duration)
  generateLoop c (dayStart + 3600 * start_hour) (dayStart + 3600 * end_hour)
    duration brk ids 0

/-- Result of a scheduling attempt (`scheduler.rs` lines 16-21). -/
structure SchedulingResult where
  request : AppointmentRequest
  appointment : Option Appointment
  success : Bool
  message : String
deriving DecidableEq, Repr

/-- Result of scheduling multiple requests (`scheduler.rs` lines 25-29). -/
structure BatchSchedulingResult where
  confirmed : List Appointment
  failed : List SchedulingResult
  total_requests : Nat
deriving DecidableEq, Repr

/-- `BatchSchedulingResult::success_rate` (`scheduler.rs` lines 33-38); the
`f64` arithmetic is modelled exactly over `Rat` — the division is guarded by
the explicit zero test, exactly as in the source. -/
def BatchSchedulingResult.success_rate (b : BatchSchedulingResult) : Rat :=
  if b.total_requests = 0 then 0
  else ((b.confirmed.length : Rat) / (b.total_requests : Rat)) * 100

/-- The scheduler (`scheduler.rs` lines 47-51); the `BinaryHeap` contents are
modelled as the list of elements currently in the heap. -/
structure AppointmentScheduler where
  calendar : DoctorCalendar
  allow_fallback : Bool
  request_queue : List AppointmentRequest
deriving Repr

/-- `AppointmentScheduler::find_slot_for_request` (`scheduler.rs` lines
76-86): in-window search first, then — only if that failed and fallback is
enabled — the next available slot at or after the preferred time. -/
def AppointmentScheduler.find_slot_for_request (s : AppointmentScheduler)
    (request : AppointmentRequest) : Option TimeSlot :=
  match s.calendar.find_available_slot request.preferred_time request.flexibility_minutes with
  | some slot => some slot
  | none =>
    if s.allow_fallback then s.calendar.find_next_available_slot request.preferred_time
    else none

/-- The success message of `schedule_single` when the slot was inside the
acceptable window (`scheduler.rs` lines 122-126). -/
def preferredMessage (slot : TimeSlot) : String :=
  "Scheduled at preferred time: " ++ toString slot.start_time

/-- The success message of `schedule_single` when the slot was outside the
acceptable window (`scheduler.rs` lines 127-133). -/
def alternativeMessage (slot : TimeSlot) (preferred_time : Int) : String :=
  "Scheduled at alternative time: " ++ toString slot.start_time
    ++ " (preferred was " ++ toString preferred_time ++ ")"

/-- `AppointmentScheduler::schedule_single` (`scheduler.rs` lines 89-173).
The source's field-by-field reconstruction of the request for the return
value yields the original request, so the model returns `request` itself. -/
def AppointmentScheduler.schedule_single (s : AppointmentScheduler)
    (request : AppointmentRequest) (fresh_id : String) (now : Int) :
    SchedulingResult × AppointmentScheduler :=
  match s.find_slot_for_request request with
  | none =>
    ({ request := request, appointment := none, success := false,
       message := "No available time slots found" }, s)
  | some slot =>
    let was_preferred := decide (request.is_time_acceptable slot)
    match s.calendar.book_slot slot request.patient request.priority
        request.reason fresh_id now with
    | (.ok appointment, c') =>
      ({ request := request, appointment := some appointment, success := true,
         message := if was_preferred then preferredMessage slot
                    else alternativeMessage slot request.preferred_time },
       { s with calendar := c' })
    | (.error e, c') =>
      ({ request := request, appointment := none, success := false, message := e },
       { s with calendar := c' })

/-- The body of `process_queue`'s `while let Some(request) = pop()` loop
(`scheduler.rs` lines 181-191), applied to the requests in drain order;
`ids k, ids (k+1), …` supply the appointment UUIDs. -/
def processRequests (s : AppointmentScheduler) (reqs : List AppointmentRequest)
    (ids : Nat → String) (now : Int) (k : Nat) :
    List Appointment × List SchedulingResult × AppointmentScheduler :=
  match reqs with
  | [] => ([], [], s)
  | r :: rest =>
    let (result, s') := s.schedule_single r (ids k) now
    let (conf, failedList, s'') := processRequests s' rest ids now (k + 1)
    match result.success, result.appointment with
    | true, some a => (a :: conf, failedList, s'')
    | true, none => (conf, failedList, s'')
    | false, _ => (conf, result :: failedList, s'')

/-- `AppointmentScheduler::process_queue` (`scheduler.rs` lines 176-198):
drains the heap in priority order, scheduling each request; afterwards the
queue is empty. -/
def AppointmentScheduler.process_queue (s : AppointmentScheduler)
    (ids : Nat → String) (now : Int) :
    BatchSchedulingResult × AppointmentScheduler :=
  let total := s.request_queue.length
  let (conf, failedList, s') :=
    processRequests ({ s with request_queue := [] }) (drainOrder s.request_queue) ids now 0
  ({ confirmed := conf, failed := failedList, total_requests := total }, s')

/-- `AppointmentScheduler::get_pending_count` (`scheduler.rs` lines 294-296). -/
def AppointmentScheduler.get_pending_count (s : AppointmentScheduler) : Nat :=
  s.request_queue.length

/-- `AppointmentScheduler::reschedule_appointment` (`scheduler.rs` lines
207-291).  `fresh_request_id` and `fresh_appointment_id` model the two
`Uuid::new_v4()` calls, `now` the `Local::now()` calls. -/
def AppointmentScheduler.reschedule_appointment (s : AppointmentScheduler)
    (appointment_id : String) (new_preferred_time flexibility_minutes : Int)
    (fresh_request_id fresh_appointment_id : String) (now : Int) :
    SchedulingResult × AppointmentScheduler :=
  match s.calendar.get_appointment_by_id appointment_id with
  | none =>
    ({ request := { request_id := fresh_request_id,
                    patient := { patient_id := "unknown", name := "Unknown",
                                 contact := "unknown" },
                    priority := .Routine, preferred_time := new_preferred_time,
                    reason := "Reschedule",
                    flexibility_minutes := flexibility_minutes,
                    created_at := now },
       appointment := none, success := false,
       message := "Original appointment not found" }, s)
  | some appointment =>
    let reschedule_request : AppointmentRequest :=
      { request_id := fresh_request_id, patient := appointment.patient,
        priority := appointment.priority, preferred_time := new_preferred_time,
        reason := appointment.reason,
        flexibility_minutes := flexibility_minutes, created_at := now }
    match s.calendar.find_available_slot new_preferred_time flexibility_minutes with
    | none =>
      ({ request := reschedule_request, appointment := none, success := false,
         message := "No available slots at the requested time" }, s)
    | some new_slot =>
      let (_, c1) := s.calendar.cancel_appointment appointment_id
      match c1.book_slot new_slot appointment.patient appointment.priority
          appointment.reason fresh_appointment_id now with
      | (.ok new_appointment, c2) =>
        ({ request := reschedule_request, appointment := some new_appointment,
           success := true,
           message := "Rescheduled to " ++ toString new_slot.start_time },
         { s with calendar := c2 })
      | (.error e, c2) =>
        ({ request := reschedule_request, appointment := none, success := false,
           message := "Failed to reschedule: " ++ e },
         { s with calendar := c2 })

/-- An appointment's slot reference is sound: the referenced slot exists in
the slot mapping and its availability flag is false. -/
def refOK (c : DoctorCalendar) (a : Appointment) : Bool :=
  match mapLookup a.time_slot.slot_id c.time_slots with
  | some s => !s.is_available
  | none => false

/-- The Calendar invariant: unique keys in both mappings; every stored slot
is keyed by its own id; no two stored slots (under distinct keys) overlap in
time; every stored appointment references a slot that exists in the slot
mapping and is marked unavailable; and distinct stored appointments
reference distinct slots. -/
def calendarInv (c : DoctorCalendar) : Prop :=
  (c.time_slots.map Prod.fst).Nodup ∧
  (c.appointments.map Prod.fst).Nodup ∧
  (∀ kv ∈ c.time_slots, kv.2.slot_id = kv.1) ∧
  (∀ kv1 ∈ c.time_slots, ∀ kv2 ∈ c.time_slots,
     kv1.1 ≠ kv2.1 → ¬ kv1.2.overlaps_with kv2.2) ∧
  (∀ kv ∈ c.appointments, refOK c kv.2 = true) ∧
  (∀ kv1 ∈ c.appointments, ∀ kv2 ∈ c.appointments,
     kv1.1 ≠ kv2.1 → kv1.2.time_slot.slot_id ≠ kv2.2.time_slot.slot_id)

instance (c : DoctorCalendar) : Decidable (calendarInv c) := by
  unfold calendarInv
  infer_instance

theorem mapLookup_mapInsert_self (k : String) (v : α) (l : List (String × α)) :
    mapLookup k (mapInsert k v l) = some v := by
  induction l with
  | nil => simp [mapInsert, mapLookup]
  | cons kv rest ih =>
    obtain ⟨k', v'⟩ := kv
    by_cases h : k' = k
    · simp [mapInsert, mapLookup, h]
    · simp [mapInsert, mapLookup, h, ih]

theorem mapLookup_mapInsert_ne {k' k : String} (h : k' ≠ k) (v : α)
    (l : List (String × α)) :
    mapLookup k' (mapInsert k v l) = mapLookup k' l := by
  induction l with
  | nil => simp [mapInsert, mapLookup, Ne.symm h]
  | cons kv rest ih =>
    obtain ⟨k0, v0⟩ := kv
    by_cases h0 : k0 = k
    · subst h0
      simp [mapInsert, mapLookup, Ne.symm h]
    · simp only [mapInsert, mapLookup, h0, if_false]
      by_cases h1 : k0 = k'
      · simp [mapLookup, h1]
      · simp [mapLookup, h1, ih]

theorem mapLookup_mapRemove_ne {k' k : String} (h : k' ≠ k)
    (l : List (String × α)) :
    mapLookup k' (mapRemove k l) = mapLookup k' l := by
  induction l with
  | nil => simp [mapRemove]
  | cons kv rest ih =>
    obtain ⟨k0, v0⟩ := kv
    by_cases h0 : k0 = k
    · subst h0
      simp [mapRemove, mapLookup, Ne.symm h]
    · simp only [mapRemove, h0, if_false]
      by_cases h1 : k0 = k'
      · simp [mapLookup, h1]
      · simp [mapLookup, h1, ih]

theorem mapLookup_some_mem {k : String} {v : α} {l : List (String × α)}
    (h : mapLookup k l = some v) : (k, v) ∈ l := by
  induction l with
  | nil => simp [mapLookup] at h
  | cons kv rest ih =>
    obtain ⟨k0, v0⟩ := kv
    by_cases h0 : k0 = k
    · subst h0
      simp [mapLookup] at h
      simp [h]
    · simp [mapLookup, h0] at h
      exact List.mem_cons_of_mem _ (ih h)

theorem mapLookup_eq_none {k : String} {l : List (String × α)} :
    mapLookup k l = none ↔ k ∉ l.map Prod.fst := by
  induction l with
  | nil => simp [mapLookup]
  | cons kv rest ih =>
    obtain ⟨k0, v0⟩ := kv
    by_cases h0 : k0 = k
    · subst h0
      simp [mapLookup]
    · simp [mapLookup, h0, ih, Ne.symm h0]

theorem mem_mapInsert {kv : String × α} {k : String} {v : α}
    {l : List (String × α)} (h : kv ∈ mapInsert k v l) :
    kv = (k, v) ∨ kv ∈ l := by
  induction l with
  | nil => simpa [mapInsert] using h
  | cons kv0 rest ih =>
    obtain ⟨k0, v0⟩ := kv0
    by_cases h0 : k0 = k
    · simp only [mapInsert, h0, if_true] at h
      rcases List.mem_cons.mp h with h | h
      · exact Or.inl h
      · exact Or.inr (List.mem_cons_of_mem _ h)
    · simp only [mapInsert, h0, if_false] at h
      rcases List.mem_cons.mp h with h | h
      · exact Or.inr (by simp [h])
      · rcases ih h with h | h
        · exact Or.inl h
        · exact Or.inr (List.mem_cons_of_mem _ h)

theorem mapRemove_sublist (k : String) (l : List (String × α)) :
    (mapRemove k l).Sublist l := by
  induction l with
  | nil => simp [mapRemove]
  | cons kv rest ih =>
    obtain ⟨k0, v0⟩ := kv
    by_cases h0 : k0 = k
    · simp only [mapRemove, h0, if_true]
      exact (List.sublist_cons_self _ _)
    · simp only [mapRemove, h0, if_false]
      exact List.Sublist.cons₂ _ ih

theorem mem_mapRemove {kv : String × α} {k : String} {l : List (String × α)}
    (hnd : (l.map Prod.fst).Nodup) (h : kv ∈ mapRemove k l) :
    kv ∈ l ∧ kv.1 ≠ k := by
  induction l with
  | nil => simp [mapRemove] at h
  | cons kv0 rest ih =>
    obtain ⟨k0, v0⟩ := kv0
    simp only [List.map_cons, List.nodup_cons] at hnd
    by_cases h0 : k0 = k
    · subst h0
      simp only [mapRemove, if_true] at h
      refine ⟨List.mem_cons_of_mem _ h, ?_⟩
      intro hk
      exact hnd.1 (hk ▸ List.mem_map_of_mem Prod.fst h)
    · simp only [mapRemove, h0, if_false] at h
      rcases List.mem_cons.mp h with h | h
      · subst h
        exact ⟨List.mem_cons_self _ _, h0⟩
      · obtain ⟨hm, hne⟩ := ih hnd.2 h
        exact ⟨List.mem_cons_of_mem _ hm, hne⟩

theorem keys_mapInsert_mem {k : String} (v : α) {l : List (String × α)}
    (h : k ∈ l.map Prod.fst) :
    (mapInsert k v l).map Prod.fst = l.map Prod.fst := by
  induction l with
  | nil => simp at h
  | cons kv rest ih =>
    obtain ⟨k0, v0⟩ := kv
    by_cases h0 : k0 = k
    · subst h0
      simp [mapInsert]
    · simp only [List.map_cons, List.mem_cons] at h
      rcases h with h | h
      · exact absurd h.symm h0
      · simp [mapInsert, h0, ih h]

theorem keys_mapInsert_notMem {k : String} (v : α) {l : List (String × α)}
    (h : k ∉ l.map Prod.fst) :
    (mapInsert k v l).map Prod.fst = l.map Prod.fst ++ [k] := by
  induction l with
  | nil => simp [mapInsert]
  | cons kv rest ih =>
    obtain ⟨k0, v0⟩ := kv
    simp only [List.map_cons, List.mem_cons] at h
    push_neg at h
    simp [mapInsert, Ne.symm h.1, ih h.2]

theorem mem_keys_of_mem {kv : String × α} {l : List (String × α)}
    (h : kv ∈ l) : kv.1 ∈ l.map Prod.fst :=
  List.mem_map_of_mem Prod.fst h

theorem TimeSlot.overlaps_symm {a b : TimeSlot} :
    a.overlaps_with b ↔ b.overlaps_with a := by
  unfold TimeSlot.overlaps_with
  exact ⟨fun h => ⟨h.2, h.1⟩, fun h => ⟨h.2, h.1⟩⟩

theorem mem_values_mapInsert {x : α} {k : String} {v : α}
    {l : List (String × α)} (h : x ∈ (mapInsert k v l).map Prod.snd) :
    x = v ∨ x ∈ l.map Prod.snd := by
  rw [List.mem_map] at h
  obtain ⟨kv, hkv, h2⟩ := h
  rcases mem_mapInsert hkv with h | h
  · left
    rw [← h2, h]
  · right
    exact h2 ▸ List.mem_map_of_mem Prod.snd h

theorem mem_available_slots {c : DoctorCalendar} {s : TimeSlot} :
    s ∈ c.available_slots ↔
      s ∈ c.time_slots.map Prod.snd ∧ s.is_available = true := by
  unfold DoctorCalendar.available_slots
  rw [(List.perm_insertionSort slotByStart _).mem_iff]
  simp [List.mem_filter]

theorem sorted_available_slots (c : DoctorCalendar) :
    List.Sorted slotByStart c.available_slots :=
  List.sorted_insertionSort slotByStart _

theorem head?_insertionSort_min {α : Type} {r : α → α → Prop} [DecidableRel r]
    [IsTotal α r] [IsTrans α r] (hrefl : ∀ a, r a a)
    {l : List α} {x : α}
    (h : (List.insertionSort r l).head? = some x) :
    x ∈ l ∧ ∀ y ∈ l, r x y := by
  have hperm := List.perm_insertionSort r l
  have hsorted := List.sorted_insertionSort r l
  cases hs : List.insertionSort r l with
  | nil => rw [hs] at h; simp at h
  | cons a rest =>
    rw [hs] at h hperm hsorted
    simp only [List.head?_cons, Option.some_inj] at h
    rw [← h]
    constructor
    · exact hperm.mem_iff.mp (List.mem_cons_self _ _)
    · intro y hy
      have hmem : y ∈ a :: rest := hperm.mem_iff.mpr hy
      rcases List.mem_cons.mp hmem with he | he
      · rw [he]
        exact hrefl _
      · exact List.rel_of_sorted_cons hsorted _ he

theorem insertionSort_eq_nil_iff {α : Type} {r : α → α → Prop} [DecidableRel r]
    {l : List α} : List.insertionSort r l = [] ↔ l = [] := by
  constructor
  · intro h
    have := (List.perm_insertionSort r l).length_eq
    rw [h] at this
    exact List.length_eq_zero.mp this.symm
  · intro h
    subst h
    rfl

theorem find?_sorted_start_min {l : List TimeSlot} {p : TimeSlot → Bool}
    {x : TimeSlot} (hsorted : List.Sorted slotByStart l)
    (h : l.find? p = some x) :
    ∀ y ∈ l, p y = true → x.start_time ≤ y.start_time := by
  induction l with
  | nil => simp at h
  | cons a rest ih =>
    rw [List.sorted_cons] at hsorted
    cases hpa : p a with
    | true =>
      rw [List.find?_cons_of_pos _ hpa, Option.some_inj] at h
      subst h
      intro y hy _
      rcases List.mem_cons.mp hy with he | he
      · rw [he]
      · exact hsorted.1 y he
    | false =>
      rw [List.find?_cons_of_neg _ (by simp [hpa])] at h
      intro y hy hpy
      rcases List.mem_cons.mp hy with he | he
      · rw [he] at hpy
        rw [hpy] at hpa
        cases hpa
      · exact ih hsorted.2 h y he hpy

/-- Concrete patient fixture. -/
def patA : Patient := { patient_id := "p1", name := "Alice", contact := "555-0001" }

/-- Concrete patient fixture. -/
def patB : Patient := { patient_id := "p2", name := "Bob", contact := "555-0002" }

/-- An Emergency request created at time 0. -/
def reqEmergency : AppointmentRequest :=
  { request_id := "r1", patient := patA, priority := .Emergency,
    preferred_time := 1000, reason := "chest pain", flexibility_minutes := 0,
    created_at := 0 }

/-- A Routine request created later, at time 100. -/
def reqRoutine : AppointmentRequest :=
  { request_id := "r2", patient := patB, priority := .Routine,
    preferred_time := 1000, reason := "checkup", flexibility_minutes := 0,
    created_at := 100 }

/-- A Routine request created at time 0. -/
def reqRoutineEarly : AppointmentRequest :=
  { request_id := "r3", patient := patA, priority := .Routine,
    preferred_time := 1000, reason := "checkup", flexibility_minutes := 0,
    created_at := 0 }

/-- A Routine request created at time 100. -/
def reqRoutineLate : AppointmentRequest :=
  { request_id := "r4", patient := patB, priority := .Routine,
    preferred_time := 1000, reason := "checkup", flexibility_minutes := 0,
    created_at := 100 }

/-- A calendar with no slots and no appointments. -/
def calEmpty : DoctorCalendar :=
  { doctor_name := "Dr. Smith", doctor_id := "d1", default_slot_duration := 30,
    time_slots := [], appointments := [] }

/-- A scheduler over the empty calendar holding an Emergency request (created
first) and a Routine request (created second). -/
def schedTwoReqs : AppointmentScheduler :=
  { calendar := calEmpty, allow_fallback := false,
    request_queue := [reqEmergency, reqRoutine] }

/-- Claim C1 (code bug): the spec and the code's own doc comment
("Higher priority requests come first. For equal priorities, earlier
requests are processed first") require the queue to drain Emergency before
Routine and, within a priority, earlier `created_at` first.  The `Ord`
implementation (`models.rs` lines 239-244) compares
`other.priority.cmp(&self.priority)` — reversed — and `created_at`
ascending, but `BinaryHeap` is a max-heap, so `pop` returns the *lowest*
priority first and, among equal priorities, the *latest* `created_at`
first.  Concretely: an Emergency request created at 0 compares strictly
less than a Routine request created at 100, the heap drains the Routine
one first, and `process_queue` consequently schedules the Routine request
before the Emergency one; for two Routine requests the one created at 100
drains before the one created at 0. -/
theorem heap_drains_lowest_priority_first :
    AppointmentRequest.cmp reqEmergency reqRoutine = .lt ∧
    drainOrder [reqEmergency, reqRoutine] = [reqRoutine, reqEmergency] ∧
    AppointmentRequest.cmp reqRoutineEarly reqRoutineLate = .lt ∧
    drainOrder [reqRoutineEarly, reqRoutineLate] = [reqRoutineLate, reqRoutineEarly] ∧
    (schedTwoReqs.process_queue (fun _ => "a1") 0).1.failed.map
      (fun res => res.request) = [reqRoutine, reqEmergency] := by
  decide

/-- A 30-minute slot at time 0, available, with id "s1". -/
def slotS1 : TimeSlot :=
  { start_time := 0, end_time := 1800, is_available := true, slot_id := "s1" }

/-- A calendar storing just the available slot `slotS1`. -/
def calOneSlot : DoctorCalendar :=
  { doctor_name := "Dr. Smith", doctor_id := "d1", default_slot_duration := 30,
    time_slots := [("s1", slotS1)], appointments := [] }

/-- Claim C2 (code bug): `book_slot` sets the stored slot's availability
flag to `false` (`calendar.rs` line 243) *before* `Appointment::new`
validates the reason (line 245), and the `?` operator propagates the
`EmptyReason` error with the flag already flipped.  Booking the available
slot "s1" with an empty reason therefore fails with
"Appointment reason cannot be empty" yet leaves the slot marked
unavailable with no appointment stored — the intermediate state the spec
says must never exist.  The claim's other branches (SlotNotFound,
SlotUnavailable, success) do behave as stated. -/
theorem book_slot_empty_reason_breaks_atomicity :
    (calOneSlot.book_slot slotS1 patA .Routine "" "a1" 0).1 =
      .error "Appointment reason cannot be empty" ∧
    mapLookup "s1" (calOneSlot.book_slot slotS1 patA .Routine "" "a1" 0).2.time_slots =
      some ({ slotS1 with is_available := false }) ∧
    (calOneSlot.book_slot slotS1 patA .Routine "" "a1" 0).2.appointments = [] := by
  decide

/-- Claim C9: `success_rate` is total — on `total_requests = 0` it returns
`0` via the guard without dividing, and otherwise it returns
`confirmed.len() / total_requests * 100` (`scheduler.rs` lines 33-38; the
`f64` arithmetic is modelled exactly over `Rat`). -/
theorem success_rate_total (b : BatchSchedulingResult) :
    (b.total_requests = 0 → b.success_rate = 0) ∧
    (b.total_requests ≠ 0 →
      b.success_rate =
        ((b.confirmed.length : Rat) / (b.total_requests : Rat)) * 100) := by
  constructor
  · intro h
    simp [BatchSchedulingResult.success_rate, h]
  · intro h
    simp [BatchSchedulingResult.success_rate, h]

/-- A concrete appointment fixture. -/
def apptA1 : Appointment :=
  { appointment_id := "a1", patient := patA,
    time_slot := { slotS1 with is_available := false }, priority := .Routine,
    reason := "checkup", created_at := 0, confirmed := true }

/-- An empty batch result. -/
def batchZero : BatchSchedulingResult :=
  { confirmed := [], failed := [], total_requests := 0 }

/-- A batch result with one confirmed appointment out of two requests. -/
def batchTwo : BatchSchedulingResult :=
  { confirmed := [apptA1], failed := [], total_requests := 2 }

/-- Witness for C9: the zero-request batch has success rate 0, and a batch
with one confirmed appointment out of two requests has rate 1/2 × 100. -/
theorem success_rate_total_witness :
    batchZero.success_rate = 0 ∧
    batchTwo.success_rate = ((1 : Rat) / (2 : Rat)) * 100 := by
  constructor
  · exact (success_rate_total batchZero).1 rfl
  · have h := (success_rate_total batchTwo).2 (by decide)
    simpa [batchTwo] using h

theorem mapLookup_mapRemove_self {k : String} {l : List (String × α)}
    (hnd : (l.map Prod.fst).Nodup) : mapLookup k (mapRemove k l) = none := by
  rw [mapLookup_eq_none]
  intro hmem
  rw [List.mem_map] at hmem
  obtain ⟨kv, hkv, hfst⟩ := hmem
  exact (mem_mapRemove hnd hkv).2 hfst

theorem cancel_appointment_not_found {c : DoctorCalendar} {id : String}
    (h : mapLookup id c.appointments = none) :
    c.cancel_appointment id = (false, c) := by
  simp only [DoctorCalendar.cancel_appointment, h]

/-- Claim C8: `cancel_appointment` on a present id removes the appointment
from the mapping, flips the referenced slot's availability flag back to
`true` (expressed as: the lookup of that slot id in the new state equals
the old lookup with the flag set), and returns `true`; on an unknown id it
returns `false` with the calendar unchanged, and a second cancellation of
the same id is always a `false` no-op on the state left by the first. -/
theorem cancel_appointment_spec (c : DoctorCalendar) (id : String)
    (hnd : (c.appointments.map Prod.fst).Nodup) :
    (∀ a, mapLookup id c.appointments = some a →
      (c.cancel_appointment id).1 = true ∧
      (c.cancel_appointment id).2.appointments = mapRemove id c.appointments ∧
      mapLookup a.time_slot.slot_id (c.cancel_appointment id).2.time_slots =
        (mapLookup a.time_slot.slot_id c.time_slots).map
          (fun s => { s with is_available := true })) ∧
    (mapLookup id c.appointments = none →
      c.cancel_appointment id = (false, c)) ∧
    ((c.cancel_appointment id).2.cancel_appointment id =
      (false, (c.cancel_appointment id).2)) := by
  refine ⟨?_, fun h => cancel_appointment_not_found h, ?_⟩
  · intro a hlook
    cases hslot : mapLookup a.time_slot.slot_id c.time_slots with
    | some slot =>
      simp only [DoctorCalendar.cancel_appointment, hlook, hslot]
      exact ⟨trivial, trivial, by rw [mapLookup_mapInsert_self, Option.map_some']⟩
    | none =>
      simp only [DoctorCalendar.cancel_appointment, hlook, hslot]
      exact ⟨trivial, trivial, by rw [Option.map_none']⟩
  · cases hlook : mapLookup id c.appointments with
    | none =>
      rw [cancel_appointment_not_found hlook]
      exact cancel_appointment_not_found hlook
    | some a =>
      have h2 : (c.cancel_appointment id).2.appointments =
          mapRemove id c.appointments := by
        cases hslot : mapLookup a.time_slot.slot_id c.time_slots with
        | some slot => simp only [DoctorCalendar.cancel_appointment, hlook, hslot]
        | none => simp only [DoctorCalendar.cancel_appointment, hlook, hslot]
      have hnone : mapLookup id (c.cancel_appointment id).2.appointments = none := by
        rw [h2]
        exact mapLookup_mapRemove_self hnd
      exact cancel_appointment_not_found hnone

/-- Slot fixture on "s1"'s calendar, booked. -/
def calBooked : DoctorCalendar :=
  { doctor_name := "Dr. Smith", doctor_id := "d1", default_slot_duration := 30,
    time_slots := [("s1", { slotS1 with is_available := false })],
    appointments := [("a1", apptA1)] }

/-- Witness for C8: canceling the booked appointment "a1" returns true,
removes it, and restores slot "s1" to available; the unknown id "zz" is a
no-op. -/
theorem cancel_appointment_spec_witness :
    ((calBooked.cancel_appointment "a1").1 = true ∧
      (calBooked.cancel_appointment "a1").2.appointments =
        mapRemove "a1" calBooked.appointments ∧
      mapLookup "s1" (calBooked.cancel_appointment "a1").2.time_slots =
        (mapLookup "s1" calBooked.time_slots).map
          (fun s => { s with is_available := true })) ∧
    calBooked.cancel_appointment "zz" = (false, calBooked) := by
  constructor
  · exact (cancel_appointment_spec calBooked "a1" (by decide)).1 apptA1 (by decide)
  · exact (cancel_appointment_spec calBooked "zz" (by decide)).2.1 (by decide)

/-- Fold a sequence of `add_time_slot` calls, reporting whether every call
succeeded. -/
def addAllOk (c : DoctorCalendar) : List TimeSlot → Bool
  | [] => true
  | s :: rest =>
    match c.add_time_slot s with
    | (.ok _, c') => addAllOk c' rest
    | (.error _, _) => false

theorem addAllOk_of_disjoint (slots : List TimeSlot) :
    ∀ c : DoctorCalendar,
    slots.Pairwise (fun a b => ¬ a.overlaps_with b) →
    (∀ ex ∈ c.time_slots.map Prod.snd, ∀ s ∈ slots, ¬ s.overlaps_with ex) →
    addAllOk c slots = true := by
  induction slots with
  | nil => intro c _ _; rfl
  | cons s rest ih =>
    intro c hpw hdisj
    rw [List.pairwise_cons] at hpw
    have hnone : (c.time_slots.map Prod.snd).find?
        (fun ex => decide (s.overlaps_with ex)) = none := by
      rw [List.find?_eq_none]
      intro ex hex
      simpa using hdisj ex hex s (List.mem_cons_self _ _)
    simp only [addAllOk, DoctorCalendar.add_time_slot, hnone]
    apply ih
    · exact hpw.2
    · intro ex hex t ht
      rcases mem_values_mapInsert hex with he | he
      · rw [he]
        intro hov
        exact hpw.1 t ht (TimeSlot.overlaps_symm.mp hov)
      · exact hdisj ex he t (List.mem_cons_of_mem _ ht)

theorem isOk_error {e : ε} : (Except.error e : Except ε α).isOk = false := rfl

theorem isOk_ok {a : α} : (Except.ok a : Except ε α).isOk = true := rfl

/-- Claim C5: `add_time_slot` fails iff the new slot's half-open interval
intersects some stored slot's interval (the `overlaps_with` test), the
state is unchanged on failure, on success the slot is inserted keyed by its
id, and consequently adding any pairwise non-overlapping sequence of slots
to an empty calendar succeeds throughout. -/
theorem add_time_slot_spec :
    (∀ (c : DoctorCalendar) (slot : TimeSlot),
      ((c.add_time_slot slot).1.isOk = false ↔
        ∃ ex ∈ c.time_slots.map Prod.snd, slot.overlaps_with ex) ∧
      ((c.add_time_slot slot).1.isOk = false → (c.add_time_slot slot).2 = c) ∧
      ((c.add_time_slot slot).1.isOk = true →
        (c.add_time_slot slot).2.time_slots =
          mapInsert slot.slot_id slot c.time_slots)) ∧
    (∀ (slots : List TimeSlot) (c : DoctorCalendar),
      slots.Pairwise (fun a b => ¬ a.overlaps_with b) →
      c.time_slots = [] → addAllOk c slots = true) := by
  constructor
  · intro c slot
    cases hfind : (c.time_slots.map Prod.snd).find?
        (fun ex => decide (slot.overlaps_with ex)) with
    | some ex =>
      simp only [DoctorCalendar.add_time_slot, hfind]
      refine ⟨iff_of_true rfl ?_, fun _ => trivial, fun h => by simp [isOk_error] at h⟩
      exact ⟨ex, List.mem_of_find?_eq_some hfind,
        by simpa using List.find?_some hfind⟩
    | none =>
      simp only [DoctorCalendar.add_time_slot, hfind]
      refine ⟨iff_of_false (by simp [isOk_ok]) ?_,
        fun h => by simp [isOk_ok] at h, fun _ => trivial⟩
      rintro ⟨ex, hex, hov⟩
      have := List.find?_eq_none.mp hfind ex hex
      simp at this
      exact this hov
  · intro slots c hpw hempty
    apply addAllOk_of_disjoint slots c hpw
    rw [hempty]
    intro ex hex
    simp at hex

/-- A 30-minute slot at 1800, not overlapping `slotS1`. -/
def slotS2 : TimeSlot :=
  { start_time := 1800, end_time := 3600, is_available := true, slot_id := "s2" }

/-- A slot overlapping both `slotS1` and `slotS2`. -/
def slotS3 : TimeSlot :=
  { start_time := 900, end_time := 2700, is_available := true, slot_id := "s3" }

/-- Witness for C5: adding the disjoint slots s1 and s2 to the empty
calendar succeeds throughout; adding the overlapping slot s3 to the
calendar holding s1 fails and leaves the calendar unchanged. -/
theorem add_time_slot_spec_witness :
    addAllOk calEmpty [slotS1, slotS2] = true ∧
    (calOneSlot.add_time_slot slotS3).1.isOk = false ∧
    (calOneSlot.add_time_slot slotS3).2 = calOneSlot := by
  refine ⟨?_, ?_, ?_⟩
  · exact add_time_slot_spec.2 [slotS1, slotS2] calEmpty (by decide) rfl
  · exact (add_time_slot_spec.1 calOneSlot slotS3).1.mpr
      ⟨slotS1, by decide, by decide⟩
  · exact (add_time_slot_spec.1 calOneSlot slotS3).2.1
      ((add_time_slot_spec.1 calOneSlot slotS3).1.mpr ⟨slotS1, by decide, by decide⟩)

theorem find_available_slot_eq (c : DoctorCalendar) (pref flex : Int) :
    c.find_available_slot pref flex =
      (List.insertionSort (distLe pref)
        (c.available_slots.filter (fun s =>
          decide (pref - 60 * flex ≤ s.start_time) &&
          decide (s.start_time ≤ pref + 60 * flex)))).head? := rfl

theorem mem_candidates_iff (c : DoctorCalendar) (pref flex : Int) (s : TimeSlot) :
    s ∈ c.available_slots.filter (fun s =>
        decide (pref - 60 * flex ≤ s.start_time) &&
        decide (s.start_time ≤ pref + 60 * flex)) ↔
      s ∈ c.time_slots.map Prod.snd ∧ s.is_available = true ∧
      pref - 60 * flex ≤ s.start_time ∧ s.start_time ≤ pref + 60 * flex := by
  rw [List.mem_filter, mem_available_slots]
  simp [and_assoc]

/-- Claim C4: `find_available_slot` returns a slot iff some available slot
starts within the inclusive window `[preferred − flexibility, preferred +
flexibility]`; the returned slot is such a candidate of minimum absolute
distance `|start − preferred|` among all candidates; and with flexibility 0
a slot is returned only if it starts exactly at the preferred time. -/
theorem find_available_slot_spec (c : DoctorCalendar) (pref flex : Int) :
    ((∃ s, c.find_available_slot pref flex = some s) ↔
      ∃ s ∈ c.time_slots.map Prod.snd, s.is_available = true ∧
        pref - 60 * flex ≤ s.start_time ∧ s.start_time ≤ pref + 60 * flex) ∧
    (∀ s, c.find_available_slot pref flex = some s →
      (s ∈ c.time_slots.map Prod.snd ∧ s.is_available = true ∧
        pref - 60 * flex ≤ s.start_time ∧ s.start_time ≤ pref + 60 * flex) ∧
      ∀ t ∈ c.time_slots.map Prod.snd, t.is_available = true →
        pref - 60 * flex ≤ t.start_time → t.start_time ≤ pref + 60 * flex →
        (s.start_time - pref).natAbs ≤ (t.start_time - pref).natAbs) ∧
    (∀ s, c.find_available_slot pref 0 = some s → s.start_time = pref) := by
  have hrefl : ∀ a : TimeSlot, distLe pref a a := fun a => Nat.le_refl _
  refine ⟨⟨?_, ?_⟩, ?_, ?_⟩
  · rintro ⟨s, hs⟩
    rw [find_available_slot_eq] at hs
    have h := head?_insertionSort_min hrefl hs
    have hm := (mem_candidates_iff c pref flex s).mp h.1
    exact ⟨s, hm.1, hm.2⟩
  · rintro ⟨s, hsv, hrest⟩
    have hs : s ∈ c.available_slots.filter (fun s =>
        decide (pref - 60 * flex ≤ s.start_time) &&
        decide (s.start_time ≤ pref + 60 * flex)) :=
      (mem_candidates_iff c pref flex s).mpr ⟨hsv, hrest⟩
    cases hsort : List.insertionSort (distLe pref)
        (c.available_slots.filter (fun s =>
          decide (pref - 60 * flex ≤ s.start_time) &&
          decide (s.start_time ≤ pref + 60 * flex))) with
    | nil =>
      rw [insertionSort_eq_nil_iff] at hsort
      rw [hsort] at hs
      cases hs
    | cons a rest =>
      refine ⟨a, ?_⟩
      rw [find_available_slot_eq, hsort]
      rfl
  · intro s hs
    rw [find_available_slot_eq] at hs
    obtain ⟨hmem, hmin⟩ := head?_insertionSort_min hrefl hs
    refine ⟨(mem_candidates_iff c pref flex s).mp hmem, ?_⟩
    intro t htv hta htb1 htb2
    exact hmin t ((mem_candidates_iff c pref flex t).mpr ⟨htv, hta, htb1, htb2⟩)
  · intro s hs
    rw [find_available_slot_eq] at hs
    obtain ⟨hmem, _⟩ := head?_insertionSort_min hrefl hs
    have hm := (mem_candidates_iff c pref 0 s).mp hmem
    omega

/-- A calendar with the two disjoint available slots s1 (start 0) and
s2 (start 1800). -/
def calTwoSlots : DoctorCalendar :=
  { doctor_name := "Dr. Smith", doctor_id := "d1", default_slot_duration := 30,
    time_slots := [("s1", slotS1), ("s2", slotS2)], appointments := [] }

/-- Witness for C4 at a concrete calendar: a slot exists in the window
around 1810 with flexibility 1 minute; the returned slot s2 is a candidate
of minimal distance; and `find_available_slot 1800 0` returns the slot
starting exactly at 1800. -/
theorem find_available_slot_spec_witness :
    (∃ s, calTwoSlots.find_available_slot 1810 1 = some s) ∧
    ((slotS2 ∈ calTwoSlots.time_slots.map Prod.snd ∧ slotS2.is_available = true ∧
        1810 - 60 * 1 ≤ slotS2.start_time ∧ slotS2.start_time ≤ 1810 + 60 * 1) ∧
      ∀ t ∈ calTwoSlots.time_slots.map Prod.snd, t.is_available = true →
        1810 - 60 * 1 ≤ t.start_time → t.start_time ≤ 1810 + 60 * 1 →
        (slotS2.start_time - 1810).natAbs ≤ (t.start_time - 1810).natAbs) ∧
    slotS2.start_time = 1800 := by
  refine ⟨?_, ?_, ?_⟩
  · exact (find_available_slot_spec calTwoSlots 1810 1).1.mpr
      ⟨slotS2, by decide, by decide, by decide, by decide⟩
  · exact (find_available_slot_spec calTwoSlots 1810 1).2.1 slotS2 (by decide)
  · exact (find_available_slot_spec calTwoSlots 1800 1).2.2 slotS2 (by decide)

theorem schedule_single_success_some {s : AppointmentScheduler}
    {r : AppointmentRequest} {fid : String} {now : Int}
    {result : SchedulingResult} {s' : AppointmentScheduler}
    (h : s.schedule_single r fid now = (result, s'))
    (hs : result.success = true) : ∃ a, result.appointment = some a := by
  cases hf : s.find_slot_for_request r with
  | none =>
    simp only [AppointmentScheduler.schedule_single, hf, Prod.mk.injEq] at h
    rw [← h.1] at hs
    simp at hs
  | some slot =>
    cases hb : s.calendar.book_slot slot r.patient r.priority r.reason fid now with
    | mk res c' =>
      cases res with
      | ok a =>
        simp only [AppointmentScheduler.schedule_single, hf, hb, Prod.mk.injEq] at h
        rw [← h.1]
        exact ⟨a, rfl⟩
      | error e =>
        simp only [AppointmentScheduler.schedule_single, hf, hb, Prod.mk.injEq] at h
        rw [← h.1] at hs
        simp at hs

theorem schedule_single_queue {s : AppointmentScheduler}
    {r : AppointmentRequest} {fid : String} {now : Int}
    {result : SchedulingResult} {s' : AppointmentScheduler}
    (h : s.schedule_single r fid now = (result, s')) :
    s'.request_queue = s.request_queue := by
  cases hf : s.find_slot_for_request r with
  | none =>
    simp only [AppointmentScheduler.schedule_single, hf, Prod.mk.injEq] at h
    rw [← h.2]
  | some slot =>
    cases hb : s.calendar.book_slot slot r.patient r.priority r.reason fid now with
    | mk res c' =>
      cases res with
      | ok a =>
        simp only [AppointmentScheduler.schedule_single, hf, hb, Prod.mk.injEq] at h
        rw [← h.2]
      | error e =>
        simp only [AppointmentScheduler.schedule_single, hf, hb, Prod.mk.injEq] at h
        rw [← h.2]

theorem processRequests_spec (reqs : List AppointmentRequest) :
    ∀ (s : AppointmentScheduler) (ids : Nat → String) (now : Int) (k : Nat),
    (processRequests s reqs ids now k).1.length +
      (processRequests s reqs ids now k).2.1.length = reqs.length ∧
    (processRequests s reqs ids now k).2.2.request_queue = s.request_queue := by
  induction reqs with
  | nil =>
    intro s ids now k
    exact ⟨rfl, rfl⟩
  | cons r rest ih =>
    intro s ids now k
    cases hs1 : s.schedule_single r (ids k) now with
    | mk result s' =>
      obtain ⟨hcnt, hq⟩ := ih s' ids now (k + 1)
      cases hpr : processRequests s' rest ids now (k + 1) with
      | mk conf rest2 =>
        cases rest2 with
        | mk failedL s'' =>
          rw [hpr] at hcnt hq
          dsimp only at hcnt hq
          have hqq : s'.request_queue = s.request_queue := schedule_single_queue hs1
          cases hsucc : result.success with
          | true =>
            obtain ⟨a, ha⟩ := schedule_single_success_some hs1 hsucc
            simp only [processRequests, hs1, hpr, hsucc, ha]
            exact ⟨by simp; omega, by rw [hq, hqq]⟩
          | false =>
            simp only [processRequests, hs1, hpr, hsucc]
            exact ⟨by simp; omega, by rw [hq, hqq]⟩

/-- Claim C10: for every queue contents, `process_queue` returns a batch
result with `total_requests = confirmed.length + failed.length` — every
popped request lands in exactly one of the two lists, because
`schedule_single` returns `success = true` only together with a `some`
appointment — and afterwards the pending queue is empty
(`get_pending_count = 0`). -/
theorem process_queue_counts (s : AppointmentScheduler) (ids : Nat → String)
    (now : Int) :
    (s.process_queue ids now).1.total_requests =
      (s.process_queue ids now).1.confirmed.length +
        (s.process_queue ids now).1.failed.length ∧
    (s.process_queue ids now).2.get_pending_count = 0 := by
  obtain ⟨hcnt, hq⟩ := processRequests_spec (drainOrder s.request_queue)
    ({ s with request_queue := [] }) ids now 0
  have hlen : (drainOrder s.request_queue).length = s.request_queue.length :=
    (List.perm_insertionSort reqGe _).length_eq
  cases hpr : processRequests ({ s with request_queue := [] })
      (drainOrder s.request_queue) ids now 0 with
  | mk conf rest2 =>
    cases rest2 with
    | mk failedL s' =>
      rw [hpr] at hcnt hq
      dsimp only at hcnt hq
      simp only [AppointmentScheduler.process_queue,
        AppointmentScheduler.get_pending_count, hpr]
      constructor
      · dsimp only
        omega
      · dsimp only
        rw [hq]
        rfl

/-- Claim C7 (amended: the two failure messages are capitalized in the code,
"Original appointment not found" and "No available slots at the requested
time"): rescheduling an unknown id fails with the former message and leaves
the scheduler (hence the calendar) unchanged; when the appointment exists
but no available slot starts in the inclusive window around the new
preferred time — no fallback relaxation is applied — it fails with the
latter message, the scheduler is unchanged, and the original appointment is
still present (cancellation happens only after a candidate slot is found,
`scheduler.rs` lines 250-267). -/
theorem reschedule_appointment_spec (s : AppointmentScheduler) (id : String)
    (t flex : Int) (frid faid : String) (now : Int) :
    (s.calendar.get_appointment_by_id id = none →
      (s.reschedule_appointment id t flex frid faid now).1.success = false ∧
      (s.reschedule_appointment id t flex frid faid now).1.message =
        "Original appointment not found" ∧
      (s.reschedule_appointment id t flex frid faid now).2 = s) ∧
    (∀ apt, s.calendar.get_appointment_by_id id = some apt →
      s.calendar.find_available_slot t flex = none →
      (s.reschedule_appointment id t flex frid faid now).1.success = false ∧
      (s.reschedule_appointment id t flex frid faid now).1.message =
        "No available slots at the requested time" ∧
      (s.reschedule_appointment id t flex frid faid now).2 = s ∧
      (s.reschedule_appointment id t flex frid faid now).2.calendar.get_appointment_by_id
        id = some apt) := by
  constructor
  · intro h
    simp only [AppointmentScheduler.reschedule_appointment, h]
    exact ⟨trivial, trivial, trivial⟩
  · intro apt h1 h2
    simp only [AppointmentScheduler.reschedule_appointment, h1, h2]
    exact ⟨trivial, trivial, trivial, trivial⟩

/-- A scheduler over the one-slot calendar with no appointments booked. -/
def schedNoAppts : AppointmentScheduler :=
  { calendar := calOneSlot, allow_fallback := true, request_queue := [] }

/-- Counterexample to C7 as stated: the failure message for an unknown
appointment id is "Original appointment not found" (capital O), not the
claimed "original appointment not found". -/
theorem reschedule_unknown_message_capitalized :
    (schedNoAppts.reschedule_appointment "a1" 0 0 "rq" "aq" 0).1.success = false ∧
    (schedNoAppts.reschedule_appointment "a1" 0 0 "rq" "aq" 0).1.message ≠
      "original appointment not found" ∧
    (schedNoAppts.reschedule_appointment "a1" 0 0 "rq" "aq" 0).1.message =
      "Original appointment not found" := by
  decide

/-- A scheduler whose calendar has slot s1 booked under appointment a1. -/
def schedBooked : AppointmentScheduler :=
  { calendar := calBooked, allow_fallback := true, request_queue := [] }

/-- Witness for the amended C7: rescheduling the unknown id "zz" fails with
the capitalized message and changes nothing; rescheduling the existing
appointment "a1" to time 9000 (no slot starts in [9000, 9000]) fails with
the capitalized no-slot message, and appointment "a1" survives. -/
theorem reschedule_appointment_spec_witness :
    ((schedBooked.reschedule_appointment "zz" 0 0 "rq" "aq" 0).1.message =
      "Original appointment not found" ∧
     (schedBooked.reschedule_appointment "zz" 0 0 "rq" "aq" 0).2 = schedBooked) ∧
    ((schedBooked.reschedule_appointment "a1" 9000 0 "rq" "aq" 0).1.message =
      "No available slots at the requested time" ∧
     (schedBooked.reschedule_appointment "a1" 9000 0 "rq" "aq" 0).2.calendar.get_appointment_by_id
       "a1" = some apptA1) := by
  constructor
  · have h := (reschedule_appointment_spec schedBooked "zz" 0 0 "rq" "aq" 0).1 (by decide)
    exact ⟨h.2.1, h.2.2⟩
  · have h := (reschedule_appointment_spec schedBooked "a1" 9000 0 "rq" "aq" 0).2
      apptA1 (by decide) (by decide)
    exact ⟨h.2.1, h.2.2.2⟩

theorem preferredMessage_ne_alternativeMessage (s1 s2 : TimeSlot) (p : Int) :
    preferredMessage s1 ≠ alternativeMessage s2 p := by
  intro h
  have hd := congrArg String.data h
  simp only [preferredMessage, alternativeMessage, String.data_append,
    List.append_assoc] at hd
  have h1 : ("Scheduled at preferred time: ".data ++
      (toString s1.start_time).data)[13]? = some 'p' := by
    rw [List.getElem?_append_left (by decide)]
    decide
  have h2 : ("Scheduled at alternative time: ".data ++
      ((toString s2.start_time).data ++ (" (preferred was ".data ++
        ((toString p).data ++ ")".data))))[13]? = some 'a' := by
    rw [List.getElem?_append_left (by decide)]
    decide
  rw [hd] at h1
  rw [h1] at h2
  cases h2

/-- Claim C6 (amended: the no-slot failure message is capitalized in the
code, "No available time slots found"): when no available slot starts
within the request's flexibility window and fallback is enabled,
`find_slot_for_request` falls back to `find_next_available_slot`, whose
result is the earliest available slot with start time at or after the
preferred time, unbounded by the flexibility window; when no slot is found
at all the result is Failed with message "No available time slots found";
on a successful booking the result message is the preferred-time message
iff the booked slot's start time lies in the original acceptable window,
and the alternative-time message otherwise; on a booking failure the result
is Failed carrying the calendar's error message verbatim. -/
theorem schedule_single_spec (s : AppointmentScheduler)
    (request : AppointmentRequest) (fresh_id : String) (now : Int) :
    (s.calendar.find_available_slot request.preferred_time
        request.flexibility_minutes = none →
      s.allow_fallback = true →
      s.find_slot_for_request request =
        s.calendar.find_next_available_slot request.preferred_time ∧
      (∀ slot,
        s.calendar.find_next_available_slot request.preferred_time = some slot →
        slot ∈ s.calendar.time_slots.map Prod.snd ∧ slot.is_available = true ∧
        request.preferred_time ≤ slot.start_time ∧
        ∀ t ∈ s.calendar.time_slots.map Prod.snd, t.is_available = true →
          request.preferred_time ≤ t.start_time →
          slot.start_time ≤ t.start_time)) ∧
    (s.find_slot_for_request request = none →
      (s.schedule_single request fresh_id now).1.success = false ∧
      (s.schedule_single request fresh_id now).1.appointment = none ∧
      (s.schedule_single request fresh_id now).1.message =
        "No available time slots found") ∧
    (∀ slot appointment c',
      s.find_slot_for_request request = some slot →
      s.calendar.book_slot slot request.patient request.priority request.reason
        fresh_id now = (.ok appointment, c') →
      (s.schedule_single request fresh_id now).1.success = true ∧
      ((s.schedule_single request fresh_id now).1.message =
          preferredMessage slot ↔ request.is_time_acceptable slot) ∧
      (¬ request.is_time_acceptable slot →
        (s.schedule_single request fresh_id now).1.message =
          alternativeMessage slot request.preferred_time)) ∧
    (∀ slot e c',
      s.find_slot_for_request request = some slot →
      s.calendar.book_slot slot request.patient request.priority request.reason
        fresh_id now = (.error e, c') →
      (s.schedule_single request fresh_id now).1.success = false ∧
      (s.schedule_single request fresh_id now).1.message = e) := by
  refine ⟨?_, ?_, ?_, ?_⟩
  · intro hnone hfb
    constructor
    · simp only [AppointmentScheduler.find_slot_for_request, hnone, hfb, if_true]
    · intro slot hfind
      unfold DoctorCalendar.find_next_available_slot at hfind
      have hmem := List.mem_of_find?_eq_some hfind
      have hp := List.find?_some hfind
      have hmin := find?_sorted_start_min (sorted_available_slots s.calendar) hfind
      rw [mem_available_slots] at hmem
      refine ⟨hmem.1, hmem.2, by simpa using hp, ?_⟩
      intro t htv hta htge
      exact hmin t (mem_available_slots.mpr ⟨htv, hta⟩) (by simpa using htge)
  · intro hnone
    simp only [AppointmentScheduler.schedule_single, hnone]
    exact ⟨trivial, trivial, trivial⟩
  · intro slot appointment c' hf hb
    cases hacc : decide (request.is_time_acceptable slot) with
    | true =>
      simp only [AppointmentScheduler.schedule_single, hf, hb, hacc, if_true]
      refine ⟨trivial, iff_of_true trivial (of_decide_eq_true hacc), ?_⟩
      intro hna
      exact absurd (of_decide_eq_true hacc) hna
    | false =>
      simp only [AppointmentScheduler.schedule_single, hf, hb, hacc,
        Bool.false_eq_true, if_false]
      refine ⟨trivial, iff_of_false ?_ (of_decide_eq_false hacc), fun _ => trivial⟩
      intro hh
      exact preferredMessage_ne_alternativeMessage slot slot request.preferred_time hh.symm
  · intro slot e c' hf hb
    simp only [AppointmentScheduler.schedule_single, hf, hb]
    exact ⟨trivial, trivial⟩

/-- A scheduler over the empty calendar, fallback enabled. -/
def schedEmptyCal : AppointmentScheduler :=
  { calendar := calEmpty, allow_fallback := true, request_queue := [] }

/-- Counterexample to C6 as stated: when no slot exists at all, the failure
message is "No available time slots found" (capital N), not the claimed
"no available time slots found". -/
theorem schedule_single_message_capitalized :
    (schedEmptyCal.schedule_single reqRoutine "a1" 0).1.success = false ∧
    (schedEmptyCal.schedule_single reqRoutine "a1" 0).1.message ≠
      "no available time slots found" ∧
    (schedEmptyCal.schedule_single reqRoutine "a1" 0).1.message =
      "No available time slots found" := by
  decide

/-- A scheduler over the two-slot calendar, fallback enabled. -/
def schedTwoCal : AppointmentScheduler :=
  { calendar := calTwoSlots, allow_fallback := true, request_queue := [] }

/-- A Routine request preferring exactly 1800 with no flexibility. -/
def reqPref1800 : AppointmentRequest :=
  { request_id := "r5", patient := patA, priority := .Routine,
    preferred_time := 1800, reason := "checkup", flexibility_minutes := 0,
    created_at := 0 }

/-- A request like `reqPref1800` but with an empty reason. -/
def reqEmptyReason : AppointmentRequest :=
  { request_id := "r6", patient := patA, priority := .Routine,
    preferred_time := 1800, reason := "", flexibility_minutes := 0,
    created_at := 0 }

/-- The appointment produced by booking s2 for `reqPref1800` with id "a9". -/
def aptS2 : Appointment :=
  { appointment_id := "a9", patient := patA,
    time_slot := { slotS2 with is_available := false }, priority := .Routine,
    reason := "checkup", created_at := 0, confirmed := true }

/-- Witness for the amended C6: with no in-window slot and fallback on, the
chosen slot is the next available one; the no-slot failure message is the
capitalized one; booking at exactly the preferred time yields success with
the preferred-time message iff the slot is acceptable; an empty reason
surfaces the calendar's booking error message verbatim. -/
theorem schedule_single_spec_witness :
    (schedTwoCal.find_slot_for_request reqRoutineEarly =
      schedTwoCal.calendar.find_next_available_slot reqRoutineEarly.preferred_time) ∧
    (schedEmptyCal.schedule_single reqRoutine "a1" 0).1.message =
      "No available time slots found" ∧
    (schedTwoCal.schedule_single reqPref1800 "a9" 0).1.success = true ∧
    ((schedTwoCal.schedule_single reqPref1800 "a9" 0).1.message =
      preferredMessage slotS2 ↔ reqPref1800.is_time_acceptable slotS2) ∧
    (schedTwoCal.schedule_single reqEmptyReason "a9" 0).1.message =
      "Appointment reason cannot be empty" := by
  refine ⟨?_, ?_, ?_, ?_, ?_⟩
  · exact ((schedule_single_spec schedTwoCal reqRoutineEarly "a1" 0).1
      (by decide) rfl).1
  · exact ((schedule_single_spec schedEmptyCal reqRoutine "a1" 0).2.1
      (by decide)).2.2
  · exact ((schedule_single_spec schedTwoCal reqPref1800 "a9" 0).2.2.1 slotS2
      aptS2
      ((schedTwoCal.calendar.book_slot slotS2 reqPref1800.patient
        reqPref1800.priority reqPref1800.reason "a9" 0).2)
      (by decide) (by decide)).1
  · exact ((schedule_single_spec schedTwoCal reqPref1800 "a9" 0).2.2.1 slotS2
      aptS2
      ((schedTwoCal.calendar.book_slot slotS2 reqPref1800.patient
        reqPref1800.priority reqPref1800.reason "a9" 0).2)
      (by decide) (by decide)).2.1
  · exact ((schedule_single_spec schedTwoCal reqEmptyReason "a9" 0).2.2.2 slotS2
      "Appointment reason cannot be empty"
      ((schedTwoCal.calendar.book_slot slotS2 reqEmptyReason.patient
        reqEmptyReason.priority reqEmptyReason.reason "a9" 0).2)
      (by decide) (by decide)).2

theorem add_time_slot_preserves {c : DoctorCalendar} (hInv : calendarInv c)
    {slot : TimeSlot} (hfresh : slot.slot_id ∉ c.time_slots.map Prod.fst) :
    calendarInv (c.add_time_slot slot).2 := by
  obtain ⟨h1, h2, h3, h4, h5, h6⟩ := hInv
  cases hfind : (c.time_slots.map Prod.snd).find?
      (fun ex => decide (slot.overlaps_with ex)) with
  | some ex =>
    simp only [DoctorCalendar.add_time_slot, hfind]
    exact ⟨h1, h2, h3, h4, h5, h6⟩
  | none =>
    have hdisj : ∀ ex ∈ c.time_slots.map Prod.snd, ¬ slot.overlaps_with ex := by
      intro ex hex
      have := List.find?_eq_none.mp hfind ex hex
      simpa using this
    simp only [DoctorCalendar.add_time_slot, hfind]
    refine ⟨?_, h2, ?_, ?_, ?_, h6⟩
    · rw [keys_mapInsert_notMem _ hfresh]
      refine List.Nodup.append h1 (List.nodup_singleton _) ?_
      intro y hy hz
      rw [List.mem_singleton] at hz
      exact hfresh (hz ▸ hy)
    · intro kv hkv
      rcases mem_mapInsert hkv with he | hm
      · rw [he]
      · exact h3 kv hm
    · intro kv1 hkv1 kv2 hkv2 hne
      rcases mem_mapInsert hkv1 with he1 | hm1 <;>
        rcases mem_mapInsert hkv2 with he2 | hm2
      · rw [he1, he2] at hne
        exact absurd rfl hne
      · rw [he1]
        exact hdisj kv2.2 (List.mem_map_of_mem Prod.snd hm2)
      · rw [he2]
        intro hov
        exact hdisj kv1.2 (List.mem_map_of_mem Prod.snd hm1)
          (TimeSlot.overlaps_symm.mp hov)
      · exact h4 kv1 hm1 kv2 hm2 hne
    · intro kv hkv
      have hold := h5 kv hkv
      by_cases heq : kv.2.time_slot.slot_id = slot.slot_id
      · rw [refOK, heq, mapLookup_eq_none.mpr hfresh] at hold
        cases hold
      · rw [refOK] at hold ⊢
        simp only
        rw [mapLookup_mapInsert_ne heq]
        exact hold

theorem book_slot_preserves {c : DoctorCalendar} (hInv : calendarInv c)
    (slot : TimeSlot) (patient : Patient) (priority : Priority)
    (reason : String) {fid : String}
    (hfid : fid ∉ c.appointments.map Prod.fst) (now : Int) :
    calendarInv (c.book_slot slot patient priority reason fid now).2 := by
  obtain ⟨h1, h2, h3, h4, h5, h6⟩ := hInv
  cases hlook : mapLookup slot.slot_id c.time_slots with
  | none =>
    simp only [DoctorCalendar.book_slot, hlook]
    exact ⟨h1, h2, h3, h4, h5, h6⟩
  | some stored =>
    have hmem : (slot.slot_id, stored) ∈ c.time_slots := mapLookup_some_mem hlook
    have hsidkeys : slot.slot_id ∈ c.time_slots.map Prod.fst :=
      mem_keys_of_mem hmem
    have hsid : stored.slot_id = slot.slot_id := h3 _ hmem
    cases havail : stored.is_available with
    | false =>
      simp only [DoctorCalendar.book_slot, hlook, havail, if_true]
      exact ⟨h1, h2, h3, h4, h5, h6⟩
    | true =>
      have hTS1 : ∀ kv ∈ mapInsert slot.slot_id
          ({ stored with is_available := false }) c.time_slots,
          kv.2.slot_id = kv.1 := by
        intro kv hkv
        rcases mem_mapInsert hkv with he | hm
        · rw [he]
          exact hsid
        · exact h3 kv hm
      have hTS2 : (mapInsert slot.slot_id
          ({ stored with is_available := false }) c.time_slots).map Prod.fst =
          c.time_slots.map Prod.fst := keys_mapInsert_mem _ hsidkeys
      have hTS3 : ∀ kv1 ∈ mapInsert slot.slot_id
          ({ stored with is_available := false }) c.time_slots,
          ∀ kv2 ∈ mapInsert slot.slot_id
            ({ stored with is_available := false }) c.time_slots,
          kv1.1 ≠ kv2.1 → ¬ kv1.2.overlaps_with kv2.2 := by
        intro kv1 hkv1 kv2 hkv2 hne
        rcases mem_mapInsert hkv1 with he1 | hm1 <;>
          rcases mem_mapInsert hkv2 with he2 | hm2
        · rw [he1, he2] at hne
          exact absurd rfl hne
        · rw [he1] at hne ⊢
          exact h4 (slot.slot_id, stored) hmem kv2 hm2 hne
        · rw [he2] at hne ⊢
          exact h4 kv1 hm1 (slot.slot_id, stored) hmem hne
        · exact h4 kv1 hm1 kv2 hm2 hne
      have hRef : ∀ a : Appointment, a.time_slot.slot_id ≠ slot.slot_id →
          refOK c a = true →
          refOK { c with
            time_slots := (mapInsert slot.slot_id
              ({ stored with is_available := false }) c.time_slots) } a = true := by
        intro a hne hold
        rw [refOK] at hold ⊢
        simp only
        rw [mapLookup_mapInsert_ne hne]
        exact hold
      have hNoRef : ∀ kv ∈ c.appointments,
          kv.2.time_slot.slot_id ≠ slot.slot_id := by
        intro kv hkv heq
        have hold := h5 kv hkv
        simp only [refOK, heq, hlook, havail, Bool.not_true] at hold
        exact Bool.noConfusion hold
      cases hre : reason.isEmpty with
      | true =>
        simp only [DoctorCalendar.book_slot, hlook, havail, Appointment.new,
          hre, Bool.true_eq_false, if_false, if_true]
        refine ⟨?_, h2, hTS1, hTS3, ?_, h6⟩
        · rw [hTS2]
          exact h1
        · intro kv hkv
          exact hRef kv.2 (hNoRef kv hkv) (h5 kv hkv)
      | false =>
        simp only [DoctorCalendar.book_slot, hlook, havail, Appointment.new,
          hre, Bool.true_eq_false, Bool.false_eq_true, if_false]
        refine ⟨?_, ?_, hTS1, hTS3, ?_, ?_⟩
        · rw [hTS2]
          exact h1
        · rw [keys_mapInsert_notMem _ hfid]
          refine List.Nodup.append h2 (List.nodup_singleton _) ?_
          intro y hy hz
          rw [List.mem_singleton] at hz
          exact hfid (hz ▸ hy)
        · intro kv hkv
          rcases mem_mapInsert hkv with he | hm
          · rw [he, refOK]
            simp only
            rw [hsid, mapLookup_mapInsert_self]
            rfl
          · exact hRef kv.2 (hNoRef kv hm) (h5 kv hm)
        · intro kv1 hkv1 kv2 hkv2 hne
          rcases mem_mapInsert hkv1 with he1 | hm1 <;>
            rcases mem_mapInsert hkv2 with he2 | hm2
          · rw [he1, he2] at hne
            exact absurd rfl hne
          · rw [he1]
            simp only
            rw [hsid]
            exact fun hh => hNoRef kv2 hm2 hh.symm
          · rw [he2]
            simp only
            rw [hsid]
            exact hNoRef kv1 hm1
          · exact h6 kv1 hm1 kv2 hm2 hne

theorem cancel_appointment_preserves {c : DoctorCalendar} (hInv : calendarInv c)
    (id : String) : calendarInv (c.cancel_appointment id).2 := by
  obtain ⟨h1, h2, h3, h4, h5, h6⟩ := hInv
  cases hlook : mapLookup id c.appointments with
  | none =>
    simp only [DoctorCalendar.cancel_appointment, hlook]
    exact ⟨h1, h2, h3, h4, h5, h6⟩
  | some a =>
    have hamem : (id, a) ∈ c.appointments := mapLookup_some_mem hlook
    have hrem_sub := mapRemove_sublist id c.appointments
    have h2' : ((mapRemove id c.appointments).map Prod.fst).Nodup :=
      (hrem_sub.map Prod.fst).nodup h2
    cases hslot : mapLookup a.time_slot.slot_id c.time_slots with
    | none =>
      simp only [DoctorCalendar.cancel_appointment, hlook, hslot]
      refine ⟨h1, h2', h3, h4, ?_, ?_⟩
      · intro kv hkv
        exact h5 kv (mem_mapRemove h2 hkv).1
      · intro kv1 hkv1 kv2 hkv2 hne
        exact h6 kv1 (mem_mapRemove h2 hkv1).1 kv2 (mem_mapRemove h2 hkv2).1 hne
    | some slot =>
      have hsmem : (a.time_slot.slot_id, slot) ∈ c.time_slots :=
        mapLookup_some_mem hslot
      have hskeys : a.time_slot.slot_id ∈ c.time_slots.map Prod.fst :=
        mem_keys_of_mem hsmem
      have hsid : slot.slot_id = a.time_slot.slot_id := h3 _ hsmem
      simp only [DoctorCalendar.cancel_appointment, hlook, hslot]
      refine ⟨?_, h2', ?_, ?_, ?_, ?_⟩
      · rw [keys_mapInsert_mem _ hskeys]
        exact h1
      · intro kv hkv
        rcases mem_mapInsert hkv with he | hm
        · rw [he]
          exact hsid
        · exact h3 kv hm
      · intro kv1 hkv1 kv2 hkv2 hne
        rcases mem_mapInsert hkv1 with he1 | hm1 <;>
          rcases mem_mapInsert hkv2 with he2 | hm2
        · rw [he1, he2] at hne
          exact absurd rfl hne
        · rw [he1] at hne ⊢
          exact h4 (a.time_slot.slot_id, slot) hsmem kv2 hm2 hne
        · rw [he2] at hne ⊢
          exact h4 kv1 hm1 (a.time_slot.slot_id, slot) hsmem hne
        · exact h4 kv1 hm1 kv2 hm2 hne
      · intro kv hkv
        obtain ⟨hkvmem, hkvne⟩ := mem_mapRemove h2 hkv
        have hrefne : kv.2.time_slot.slot_id ≠ a.time_slot.slot_id :=
          h6 kv hkvmem (id, a) hamem hkvne
        have hold := h5 kv hkvmem
        rw [refOK] at hold ⊢
        simp only
        rw [mapLookup_mapInsert_ne hrefne]
        exact hold
      · intro kv1 hkv1 kv2 hkv2 hne
        exact h6 kv1 (mem_mapRemove h2 hkv1).1 kv2 (mem_mapRemove h2 hkv2).1 hne

theorem generateLoop_preserves (endT duration : Int) (brk : Option (Int × Int))
    (ids : Nat → String) (hinj : Function.Injective ids) :
    ∀ (n : Nat) (current : Int), (endT - current).toNat = n →
    ∀ (k : Nat) (c : DoctorCalendar), calendarInv c →
    (∀ j, k ≤ j → ids j ∉ c.time_slots.map Prod.fst) →
    calendarInv (generateLoop c current endT duration brk ids k).2 := by
  intro n
  induction n using Nat.strong_induction_on with
  | _ n ih =>
    intro current hn k c hInv hfresh
    rw [generateLoop]
    split
    case isFalse h => exact hInv
    case isTrue h =>
      dsimp only
      split
      case isTrue hskip =>
        exact ih ((endT - (current + duration)).toNat) (by omega)
          (current + duration) rfl k c hInv hfresh
      case isFalse hskip =>
        have hnew : TimeSlot.new current (current + duration) (ids k) =
            .ok { start_time := current, end_time := current + duration, is_available := true, slot_id := ids k } := by
          rw [TimeSlot.new, if_neg (by omega)]
        simp only [hnew]
        cases hfind : (c.time_slots.map Prod.snd).find? (fun ex => decide (TimeSlot.overlaps_with { start_time := current, end_time := current + duration, is_available := true, slot_id := ids k } ex)) with
        | some ex =>
          simp only [DoctorCalendar.add_time_slot, hfind]
          exact ih ((endT - (current + duration)).toNat) (by omega)
            (current + duration) rfl (k + 1) c hInv
            (fun j hj => hfresh j (by omega))
        | none =>
          simp only [DoctorCalendar.add_time_slot, hfind]
          have hInv1 : calendarInv { c with time_slots := (mapInsert (ids k) { start_time := current, end_time := current + duration, is_available := true, slot_id := ids k } c.time_slots) } := by
            have hh := @add_time_slot_preserves c hInv { start_time := current, end_time := current + duration, is_available := true, slot_id := ids k } (hfresh k (Nat.le_refl k))
            simp only [DoctorCalendar.add_time_slot, hfind] at hh
            exact hh
          have hfresh1 : ∀ j, k + 1 ≤ j →
              ids j ∉ (mapInsert (ids k) { start_time := current, end_time := current + duration, is_available := true, slot_id := ids k } c.time_slots).map Prod.fst := by
            intro j hj hmem
            rw [keys_mapInsert_notMem _ (hfresh k (Nat.le_refl k))] at hmem
            rcases List.mem_append.mp hmem with hm | hm
            · exact hfresh j (by omega) hm
            · rw [List.mem_singleton] at hm
              have := hinj hm
              omega
          have hrec := ih ((endT - (current + duration)).toNat) (by omega)
            (current + duration) rfl (k + 1) _ hInv1 hfresh1
          cases hgl : generateLoop { c with time_slots := (mapInsert (ids k) { start_time := current, end_time := current + duration, is_available := true, slot_id := ids k } c.time_slots) } (current + duration) endT duration brk ids (k + 1) with
          | mk slots c2 =>
            rw [hgl] at hrec
            simp only [hgl]
            exact hrec

/-- Claim C3 (amended): `add_time_slot` (for a slot with a fresh id, as the
UUID generator provides), `generate_daily_slots` (for injective fresh ids),
`book_slot` (fresh appointment id), and `cancel_appointment` preserve the
Calendar invariant, stated with two structural strengthenings (slots are
keyed by their own id, and distinct appointments reference distinct slots);
`remove_time_slot` is NOT invariant-preserving: it deletes a slot
unconditionally even while an appointment references it
(`calendar.rs` lines 82-84), as the counterexample shows. -/
theorem calendar_ops_preserve_inv (c : DoctorCalendar) (hInv : calendarInv c) :
    (∀ slot : TimeSlot, slot.slot_id ∉ c.time_slots.map Prod.fst →
      calendarInv (c.add_time_slot slot).2) ∧
    (∀ (dayStart : Int) (start_hour end_hour : Nat)
      (slot_duration_minutes : Option Int) (brk : Option (Int × Int))
      (ids : Nat → String), Function.Injective ids →
      (∀ j, ids j ∉ c.time_slots.map Prod.fst) →
      calendarInv (c.generate_daily_slots dayStart start_hour end_hour
        slot_duration_minutes brk ids).2) ∧
    (∀ (slot : TimeSlot) (patient : Patient) (priority : Priority)
      (reason : String) (fid : String) (now : Int),
      fid ∉ c.appointments.map Prod.fst →
      calendarInv (c.book_slot slot patient priority reason fid now).2) ∧
    (∀ id : String, calendarInv (c.cancel_appointment id).2) := by
  refine ⟨?_, ?_, ?_, ?_⟩
  · intro slot hfresh
    exact add_time_slot_preserves hInv hfresh
  · intro dayStart start_hour end_hour slot_duration_minutes brk ids hinj hfresh
    exact generateLoop_preserves (dayStart + 3600 * end_hour)
      (60 * (slot_duration_minutes.getD c.default_slot_duration)) brk ids hinj
      ((dayStart + 3600 * end_hour) - (dayStart + 3600 * start_hour)).toNat
      (dayStart + 3600 * start_hour) rfl 0 c hInv (fun j _ => hfresh j)
  · intro slot patient priority reason fid now hfid
    exact book_slot_preserves hInv slot patient priority reason hfid now
  · intro id
    exact cancel_appointment_preserves hInv id

/-- Counterexample to C3 as stated: `remove_time_slot` does not preserve
the invariant — it deletes slot "s1" even though appointment "a1" still
references it, leaving an appointment whose slot no longer exists. -/
theorem remove_time_slot_breaks_inv :
    calendarInv calBooked ∧
    (calBooked.remove_time_slot "s1").1 = true ∧
    ¬ calendarInv (calBooked.remove_time_slot "s1").2 := by
  exact ⟨by decide, by decide, by decide⟩

/-- Witness for the amended C3, exercising each preserved operation on a
concrete invariant-satisfying calendar. -/
theorem calendar_ops_preserve_inv_witness :
    calendarInv (calBooked.cancel_appointment "a1").2 ∧
    calendarInv (calTwoSlots.book_slot slotS1 patA .Routine "checkup" "a7" 0).2 ∧
    calendarInv (calOneSlot.add_time_slot slotS2).2 ∧
    calendarInv (calEmpty.generate_daily_slots 0 9 10 (some 30) none
      (fun n => String.mk (List.replicate n 'g'))).2 := by
  have hinj : Function.Injective (fun n => String.mk (List.replicate n 'g')) := by
    intro a b h
    have h2 : List.replicate a 'g' = List.replicate b 'g' := congrArg String.data h
    have h3 := congrArg List.length h2
    simpa using h3
  refine ⟨?_, ?_, ?_, ?_⟩
  · exact (calendar_ops_preserve_inv calBooked (by decide)).2.2.2 "a1"
  · exact (calendar_ops_preserve_inv calTwoSlots (by decide)).2.2.1 slotS1 patA
      .Routine "checkup" "a7" 0 (by decide)
  · exact (calendar_ops_preserve_inv calOneSlot (by decide)).1 slotS2 (by decide)
  · exact (calendar_ops_preserve_inv calEmpty (by decide)).2.1 0 9 10 (some 30)
      none (fun n => String.mk (List.replicate n 'g')) hinj
      (fun j => by simp [calEmpty])
